import Mathlib

/-!
Shallow embedding of the core RAG pipeline of the cfo_dashboard repository:
the chunker (src/utils/chunker.py), the invoice status labeler and query
intent filter and truncation step of query_rag (src/utils/pipeline.py),
the metadata-resolution loops of the two query_rag variants
(src/utils/pipeline.py and src/RAG/src/pipeline.py), the ingestion
dispatcher ingest_document, the Qdrant adapter (src/utils/vectorstore_qdrant.py)
and the polling loop of call_vllm (src/utils/llm_client.py).

Python strings are modelled as `List Char` where character-level structure
matters (splitting, joining, truncation) and as `String` for opaque values
compared only for equality. Machine floats never influence any control flow
modelled here, so embedding vectors are represented by `List Int` placeholders.
-/

deriving instance DecidableEq for Except

/-- ASCII whitespace, the separator class of Python str.split with no
arguments (the inputs modelled here are ASCII). -/
def isWS (c : Char) : Bool :=
  c == ' ' || c == '\t' || c == '\n' || c == '\r' || c == '\x0b' || c == '\x0c'

/-- Accumulator-based splitter: Python text.split(), splitting on runs of
whitespace and dropping empty pieces. `acc` holds the current word reversed. -/
def splitAux : List Char → List Char → List (List Char)
  | [], acc => if acc = [] then [] else [acc.reverse]
  | c :: cs, acc =>
    if isWS c then
      if acc = [] then splitAux cs [] else acc.reverse :: splitAux cs []
    else splitAux cs (c :: acc)

/-- Python text.split() on a character list. -/
def splitWords (s : List Char) : List (List Char) :=
  splitAux s []

/-- Python " ".join(words) on character lists. -/
def joinWords : List (List Char) → List Char
  | [] => []
  | [w] => w
  | w :: w2 :: ws => w ++ ' ' :: joinWords (w2 :: ws)

/-- Drop leading whitespace characters. -/
def dropLeadWS : List Char → List Char
  | [] => []
  | c :: cs => if isWS c then dropLeadWS cs else c :: cs

/-- Python s.strip(): drop whitespace at both ends. -/
def pyStrip (s : List Char) : List Char :=
  (dropLeadWS (dropLeadWS s).reverse).reverse

/-- Does `s` start with `pat`? (helper for substring and suffix tests). -/
def listStarts : List Char → List Char → Bool
  | [], _ => true
  | _ :: _, [] => false
  | p :: ps, c :: cs => p == c && listStarts ps cs

/-- Helper for `strContains`: does `pat` occur contiguously in the list? -/
def containsAux (pat : List Char) : List Char → Bool
  | [] => listStarts pat []
  | c :: cs => listStarts pat (c :: cs) || containsAux pat cs

/-- Python substring membership: `pat in s`. -/
def strContains (s pat : String) : Bool :=
  containsAux pat.data s.data

/-- Python s.endswith(suffix). -/
def pyEndsWith (s suffix : String) : Bool :=
  listStarts suffix.data.reverse s.data.reverse

/-- ASCII lowercase of one character (Python str.lower on the ASCII inputs
modelled here). -/
def charLower (c : Char) : Char :=
  if 'A' ≤ c && c ≤ 'Z' then Char.ofNat (c.toNat + 32) else c

/-- Python s.lower(). -/
def pyLower (s : String) : String :=
  ⟨s.data.map charLower⟩

/-- Fuel-based worker for `pyRangeStep`: since the step is at least one, the
iteration count is bounded by `stop - start`, which the wrapper passes as
fuel; structural recursion keeps the function kernel-computable. -/
def pyRangeGo (step : Nat) : Nat → Nat → Nat → List Nat
  | 0, _, _ => []
  | fuel + 1, start, stop =>
    if 0 < step ∧ start < stop then start :: pyRangeGo step fuel (start + step) stop
    else []

/-- Python range(start, stop, step) for a positive step (a non-positive step
never reaches this function in the definitions below). -/
def pyRangeStep (start stop step : Nat) : List Nat :=
  pyRangeGo step (stop - start) start stop

/-- The successive slices `xs[i : i + size]` for `i` in
range(0, len(xs), step): the window pattern shared by `chunk_text`
(src/utils/chunker.py) and `upsert_embeddings` (src/utils/vectorstore_qdrant.py). -/
def slidingWindows {α : Type} (xs : List α) (size step : Nat) : List (List α) :=
  (pyRangeStep 0 xs.length step).map (fun i => (xs.drop i).take size)

/-- src/utils/chunker.py chunk_text. The Python loop is
`for i in range(0, len(words), chunk_size - overlap)`; `range` with a zero
step raises ValueError, and with a negative step (and a non-negative stop)
yields no iterations, so the function silently returns `[]`. Both outcomes
of the Python range semantics are part of the translation. -/
def chunk_text (text : List Char) (chunk_size : Nat := 500) (overlap : Nat := 100) :
    Except String (List (List Char)) :=
  let words := splitWords text
  if overlap < chunk_size then
    Except.ok ((pyRangeStep 0 words.length (chunk_size - overlap)).filterMap
      (fun i =>
        let chunk := joinWords ((words.drop i).take chunk_size)
        if pyStrip chunk = [] then none else some chunk))
  else if overlap = chunk_size then
    Except.error "ValueError: range() arg 3 must not be zero"
  else
    Except.ok []

/-- Day-of-year number for a 2024 (leap year) date, used to give the concrete
dates of the examples a faithful total order and day arithmetic: pandas
Timestamp comparison and `timedelta(days=7)` correspond to `<`/`≤` and `+ 7`
on day numbers. -/
def dayOf2024 (m d : Nat) : Nat :=
  (match m with
    | 1 => 0 | 2 => 31 | 3 => 60 | 4 => 91 | 5 => 121 | 6 => 152
    | 7 => 182 | 8 => 213 | 9 => 244 | 10 => 274 | 11 => 305 | _ => 335) + d

/-- One invoice row as consumed by `status_fn` in src/utils/pipeline.py:
the coerced Due Date (`pd.to_datetime(..., errors="coerce")` yields NaT, i.e.
`none`, on an unparseable date; otherwise a day number) and the raw
Payment Status cell. -/
structure InvoiceRow where
  dueDate : Option Int
  paymentStatus : String
deriving DecidableEq, Repr

/-- src/utils/pipeline.py query_rag, inner `status_fn` of `label_status`
(lines 158-169): the per-row derived Status. `today` is the current day
number and next_week is `today + 7`. -/
def status_fn (dueDate : Option Int) (paymentStatus : String) (today : Int) : String :=
  match dueDate with
  | none => "Unknown"
  | some due =>
    if pyLower paymentStatus ≠ "not paid" then "Paid"
    else if due < today then "Overdue"
    else if today ≤ due ∧ due ≤ today + 7 then "Upcoming"
    else "Future"

/-- Status of an invoice row, as placed in the Status column by `label_status`. -/
def rowStatus (r : InvoiceRow) (today : Int) : String :=
  status_fn r.dueDate r.paymentStatus today

/-- src/utils/pipeline.py query_rag step 3: `label_status` maps the status
function over the table, pairing each row with its Status column value. -/
def label_status (rows : List InvoiceRow) (today : Int) : List (InvoiceRow × String) :=
  rows.map (fun r => (r, rowStatus r today))

/-- Modelled from the spec: the Invoice Status Labeler decision order of
spec §4.7, written from its bullet list, to be compared with `status_fn`
translated from the source. -/
def statusLabelerSpec (dueDate : Option Int) (paymentStatus : String) (today : Int) : String :=
  match dueDate with
  | none => "Unknown"
  | some due =>
    if pyLower paymentStatus = "not paid" then
      if due < today then "Overdue"
      else if today ≤ due ∧ due ≤ today + 7 then "Upcoming"
      else "Future"
    else "Paid"

/-- src/utils/pipeline.py query_rag step 4: the upcoming-intent keywords. -/
def upcomingKeywords : List String := ["upcoming", "this week", "next week"]

/-- src/utils/pipeline.py query_rag step 4: the overdue-intent keywords. -/
def overdueKeywords : List String := ["overdue", "late", "crossed"]

/-- src/utils/pipeline.py query_rag step 4 (lines 177-185): intent-based
filtering of an invoice table on the derived Status column. -/
def queryIntentFilter (query : String) (rows : List InvoiceRow) (today : Int) :
    List InvoiceRow :=
  let ql := pyLower query
  if upcomingKeywords.any (fun k => strContains ql k) then
    rows.filter (fun r => rowStatus r today == "Upcoming")
  else if overdueKeywords.any (fun k => strContains ql k) then
    rows.filter (fun r => rowStatus r today == "Overdue")
  else
    rows

/-- src/utils/pipeline.py query_rag step 5 (lines 188-189): `truncate`. -/
def truncate (txt : List Char) (max_len : Nat := 5000) : List Char :=
  if txt.length > max_len then txt.take max_len ++ "...".data else txt

/-- src/utils/pipeline.py query_rag step 5 (lines 191-194): the four context
sections are each truncated against their own independent default budget. -/
def truncateSections (ar_csv ap_csv po_text reg_text : List Char) :
    List Char × List Char × List Char × List Char :=
  (truncate ar_csv, truncate ap_csv, truncate po_text, truncate reg_text)

/-- A metadata store as seen through `get_metadata` (src/utils/redis_client.py):
a total map from chunk id to a Python dict, where a miss yields the empty
dict `[]` (get_metadata returns `{}` when the key is absent). -/
def MetaStore : Type := String → List (String × String)

/-- src/utils/pipeline.py query_rag step 1 (lines 136-139): resolve each
retrieval hit through the metadata store, keeping the content only when the
metadata dict is non-empty and has a "content" key — a dangling chunk id is
silently dropped. -/
def collectDocs (hits : List String) (store : MetaStore) : List String :=
  hits.filterMap (fun cid =>
    let m := store cid
    if m.isEmpty then none else m.lookup "content")

/-- src/RAG/src/pipeline.py query_rag (lines 65-69): the same loop in the
RAG-directory variant indexes `full_metadata["content"]` unconditionally;
on a dangling chunk id `get_metadata` yields the empty dict and the
subscript raises KeyError, modelled as the error case. -/
def collectDocsRAG (hits : List String) (store : MetaStore) :
    Except String (List String) :=
  match hits with
  | [] => Except.ok []
  | cid :: rest =>
    match (store cid).lookup "content" with
    | none => Except.error "KeyError: content"
    | some c => (collectDocsRAG rest store).map (fun ds => c :: ds)

/-- Observable side effects of `ingest_document` (src/utils/pipeline.py
lines 100-123), in program order: parser calls, the embedding call, the
collection init, each metadata-store write and the final vector upsert. -/
inductive IngestEffect where
  | parsePdfE (path : String)
  | parseCsvE (path : String)
  | embedE (texts : List (List Char))
  | initCollectionE (dim : Nat)
  | storeMetadataE (cid : String) (content : List Char)
  | upsertE (ids : List String)
deriving DecidableEq, Repr

/-- Tail of `ingest_document` after chunking: embed all chunks in one call,
init the collection at `len(vectors[0])` (an empty vector list makes that
subscript raise IndexError), write one metadata record per (chunk, vector)
pair under a fresh uuid, and upsert the points. Returns the outcome together
with the effect trace accumulated after `pre`. -/
def ingestChunks (chunks : List (List Char)) (embedFn : List (List Char) → List (List Int))
    (uuids : Nat → String) (pre : List IngestEffect) :
    Except String Unit × List IngestEffect :=
  let vectors := embedFn chunks
  match vectors with
  | [] => (Except.error "IndexError: list index out of range", pre ++ [IngestEffect.embedE chunks])
  | v :: _ =>
    let pairs := (chunks.zip vectors).enum
    (Except.ok (),
      pre ++ [IngestEffect.embedE chunks, IngestEffect.initCollectionE v.length]
        ++ pairs.map (fun p => IngestEffect.storeMetadataE (uuids p.1) p.2.1)
        ++ [IngestEffect.upsertE (pairs.map (fun p => uuids p.1))])

/-- src/utils/pipeline.py ingest_document (lines 100-123): dispatch on the
file extension; an unsupported extension raises
`ValueError("Unsupported file type")` before anything else runs. The parsed
PDF text and CSV chunks are supplied as oracles for the parser calls, which
are recorded in the effect trace at the point the source performs them. -/
def ingest_document (path : String) (pdfText : List Char) (csvChunks : List (List Char))
    (embedFn : List (List Char) → List (List Int)) (uuids : Nat → String) :
    Except String Unit × List IngestEffect :=
  if pyEndsWith path ".pdf" then
    match chunk_text pdfText 500 100 with
    | Except.error e => (Except.error e, [IngestEffect.parsePdfE path])
    | Except.ok chunks => ingestChunks chunks embedFn uuids [IngestEffect.parsePdfE path]
  else if pyEndsWith path ".csv" then
    ingestChunks csvChunks embedFn uuids [IngestEffect.parseCsvE path]
  else
    (Except.error "Unsupported file type", [])

/-- State of the Qdrant collection as seen by src/utils/vectorstore_qdrant.py:
whether the collection exists (with its vector dimension) and the ids of the
points it holds. -/
structure QdrantState where
  collection : Option Nat
  points : List String
deriving DecidableEq, Repr

/-- Actions issued to the Qdrant client by `init_collection`. -/
inductive QAction where
  | getC
  | createC (dim : Nat)
  | deleteC
deriving DecidableEq, Repr

/-- src/utils/vectorstore_qdrant.py get_collection probe: succeeds with the
stored dimension, raises (error) when the collection is absent. -/
def get_collection (st : QdrantState) : Except Unit Nat :=
  match st.collection with
  | some d => Except.ok d
  | none => Except.error ()

/-- src/utils/vectorstore_qdrant.py init_collection (lines 12-24): try
get_collection; only on its failure create the collection. Returns the new
state and the actions issued. -/
def init_collection (dim : Nat) (st : QdrantState) : QdrantState × List QAction :=
  match get_collection st with
  | Except.ok _ => (st, [QAction.getC])
  | Except.error _ => (⟨some dim, st.points⟩, [QAction.getC, QAction.createC dim])

/-- src/utils/vectorstore_qdrant.py upsert_embeddings (lines 27-31): the
batches sent to the client, in order: `points[i : i + batch_size]` for
`i` in range(0, len(points), batch_size). -/
def upsert_embeddings {α : Type} (points : List α) (batch_size : Nat := 100) :
    List (List α) :=
  slidingWindows points batch_size batch_size

/-- Outcome of one status poll in `call_vllm` (src/utils/llm_client.py):
the parsed JSON reports COMPLETED (with its output field, of abstract type
`γ`), FAILED, or some other in-progress status, or the requests call raises
a Timeout or another RequestException. -/
inductive PollResult (γ : Type) where
  | completed (output : γ)
  | failed
  | pending
  | timeoutExc
  | requestExc (msg : String)

/-- src/utils/llm_client.py call_vllm polling loop (lines 90-147).
`responses k` is the outcome of the k-th poll, `handleCompleted` stands for
the pure output-extraction and clean_output post-processing of the COMPLETED
branch, `remaining = max_attempts - attempts`. Returns the result string and
the number of polls issued; every Python path returns a string (the
surrounding try/except converts any exception into an error message). -/
def pollLoop {γ : Type} (responses : Nat → PollResult γ) (handleCompleted : γ → String) :
    Nat → Nat → String × Nat
  | _, 0 => ("Error: LLM request timed out after 300 seconds (5 minutes).", 0)
  | k, r + 1 =>
    match responses k with
    | PollResult.completed out => (handleCompleted out, 1)
    | PollResult.failed => ("Error: LLM job failed.", 1)
    | PollResult.pending =>
      let p := pollLoop responses handleCompleted (k + 1) r
      (p.1, p.2 + 1)
    | PollResult.timeoutExc =>
      if r = 0 then ("Error: LLM request timed out.", 1)
      else
        let p := pollLoop responses handleCompleted (k + 1) r
        (p.1, p.2 + 1)
    | PollResult.requestExc m => ("Error checking LLM status: " ++ m, 1)

/-- The polling phase of call_vllm: max_attempts = 100, starting at poll 0. -/
def call_vllm_poll {γ : Type} (responses : Nat → PollResult γ)
    (handleCompleted : γ → String) : String × Nat :=
  pollLoop responses handleCompleted 0 100

/-- The last `n` elements of a list (the reading "the last 100 words"). -/
def lastN {α : Type} (n : Nat) (l : List α) : List α :=
  l.drop (l.length - n)

/-- The single word of the concrete chunker inputs below. -/
def wA : List Char := ['a']

/-- A concrete 450-word text: 450 copies of the word "a". -/
def textC : List Char := joinWords (List.replicate 450 wA)

/-- The second chunk `chunk_text` produces on `textC`: the last 50 words. -/
def chunkC2 : List Char := joinWords (List.replicate 50 wA)

/-- A concrete invoice row due in 3 days and unpaid (Status Upcoming at day 0). -/
def rowU : InvoiceRow := ⟨some 3, "not paid"⟩

/-- A concrete invoice row 3 days past due and unpaid (Status Overdue at day 0). -/
def rowO : InvoiceRow := ⟨some (-3), "not paid"⟩

/-- A concrete metadata store with one resolvable chunk id: id1 has a full
record, every other id is a miss (empty dict). -/
def storeC : MetaStore := fun cid =>
  if cid = "id1" then [("doc_name", "reg"), ("content", "A"), ("chunk_id", "id1")] else []

/-! ### Helper lemmas about the range loop and sliding windows -/

theorem pyRangeGo_fuel (step : Nat) :
    ∀ (fuel start stop : Nat), stop - start ≤ fuel →
      pyRangeGo step fuel start stop = pyRangeGo step (stop - start) start stop := by
  intro fuel
  induction fuel using Nat.strong_induction_on with
  | _ fuel ih =>
    intro start stop h
    cases fuel with
    | zero =>
      have h0 : stop - start = 0 := Nat.le_zero.mp h
      rw [h0]
    | succ f =>
      by_cases hc : 0 < step ∧ start < stop
      · have hm : stop - start = (stop - start - 1) + 1 := by omega
        rw [pyRangeGo, if_pos hc, hm, pyRangeGo, if_pos hc,
          ih f (by omega) (start + step) stop (by omega),
          ih (stop - start - 1) (by omega) (start + step) stop (by omega)]
      · have hnil : ∀ g, pyRangeGo step (g + 1) start stop = [] := by
          intro g
          rw [pyRangeGo, if_neg hc]
        cases hm : stop - start with
        | zero => rw [hnil f]; rfl
        | succ m => rw [hnil f, hnil m]

theorem pyRangeStep_stop_le (start stop step : Nat) (h : stop ≤ start) :
    pyRangeStep start stop step = [] := by
  rw [pyRangeStep, Nat.sub_eq_zero_of_le h]
  rfl

theorem pyRangeStep_cons (start stop step : Nat) (hstep : 0 < step) (h : start < stop) :
    pyRangeStep start stop step = start :: pyRangeStep (start + step) stop step := by
  rw [pyRangeStep, pyRangeStep]
  have hm : stop - start = (stop - start - 1) + 1 := by omega
  rw [hm, pyRangeGo, if_pos ⟨hstep, h⟩,
    pyRangeGo_fuel step (stop - start - 1) (start + step) stop (by omega)]

theorem pyRangeStep_nil_of_not (start stop step : Nat)
    (h : ¬(0 < step ∧ start < stop)) : pyRangeStep start stop step = [] := by
  rw [pyRangeStep]
  cases hm : stop - start with
  | zero => rfl
  | succ m => rw [pyRangeGo, if_neg h]

theorem pyRangeStep_shift_aux (step : Nat) (hstep : 0 < step) :
    ∀ n start stop, stop - start ≤ n →
      pyRangeStep (start + step) stop step =
        (pyRangeStep start (stop - step) step).map (fun i => i + step) := by
  intro n
  induction n with
  | zero =>
    intro start stop h
    rw [pyRangeStep_stop_le (start + step) stop step (by omega),
      pyRangeStep_stop_le start (stop - step) step (by omega)]
    rfl
  | succ n ih =>
    intro start stop h
    by_cases hlt : start + step < stop
    · rw [pyRangeStep_cons (start + step) stop step hstep hlt,
        pyRangeStep_cons start (stop - step) step hstep (by omega), List.map_cons]
      rw [ih (start + step) stop (by omega)]
    · rw [pyRangeStep_stop_le (start + step) stop step (by omega),
        pyRangeStep_stop_le start (stop - step) step (by omega)]
      rfl

theorem pyRangeStep_shift (start stop step : Nat) (hstep : 0 < step) :
    pyRangeStep (start + step) stop step =
      (pyRangeStep start (stop - step) step).map (fun i => i + step) :=
  pyRangeStep_shift_aux step hstep (stop - start) start stop (Nat.le_refl _)

theorem pyRangeStep_mem_lt_aux (step : Nat) :
    ∀ n start stop, stop - start ≤ n →
      ∀ i ∈ pyRangeStep start stop step, i < stop := by
  intro n
  induction n with
  | zero =>
    intro start stop h i hi
    rw [pyRangeStep_stop_le start stop step (by omega)] at hi
    simp at hi
  | succ n ih =>
    intro start stop h i hi
    by_cases hc : 0 < step ∧ start < stop
    · rw [pyRangeStep_cons start stop step hc.1 hc.2] at hi
      rcases List.mem_cons.mp hi with rfl | hi
      · exact hc.2
      · exact ih (start + step) stop (by omega) i hi
    · rw [pyRangeStep_nil_of_not start stop step hc] at hi
      simp at hi

theorem pyRangeStep_mem_lt (start stop step : Nat) :
    ∀ i ∈ pyRangeStep start stop step, i < stop :=
  pyRangeStep_mem_lt_aux step (stop - start) start stop (Nat.le_refl _)

theorem slidingWindows_nil {α : Type} (size step : Nat) :
    slidingWindows ([] : List α) size step = [] := by
  rw [slidingWindows, List.length_nil, pyRangeStep_stop_le 0 0 step (Nat.le_refl 0)]
  rfl

theorem slidingWindows_cons {α : Type} (xs : List α) (size step : Nat)
    (hstep : 0 < step) (hxs : xs ≠ []) :
    slidingWindows xs size step =
      xs.take size :: slidingWindows (xs.drop step) size step := by
  have hL : 0 < xs.length := List.length_pos.mpr hxs
  have hshift := pyRangeStep_shift 0 xs.length step hstep
  rw [slidingWindows, pyRangeStep_cons 0 xs.length step hstep hL, List.map_cons]
  congr 1
  rw [hshift, List.map_map, slidingWindows, List.length_drop]
  apply List.map_congr_left
  intro i _
  show (xs.drop (i + step)).take size = ((xs.drop step).drop i).take size
  rw [List.drop_drop, Nat.add_comm step i]

theorem slidingWindows_flatten {α : Type} (b : Nat) (hb : 0 < b) :
    ∀ xs : List α, (slidingWindows xs b b).flatten = xs := by
  intro xs
  generalize hL : xs.length = n
  induction n using Nat.strong_induction_on generalizing xs with
  | _ n ih =>
    cases xs with
    | nil => rw [slidingWindows_nil]; rfl
    | cons y ys =>
      rw [slidingWindows_cons (y :: ys) b b hb (by simp), List.flatten_cons,
        ih ((y :: ys).drop b).length
          (by rw [← hL]; simpa using Nat.sub_lt (List.length_pos.mpr (List.cons_ne_nil y ys)) hb)
          ((y :: ys).drop b) rfl]
      exact List.take_append_drop b (y :: ys)

theorem slidingWindows_getElem {α : Type} (size step : Nat) (hstep : 0 < step) :
    ∀ (k : Nat) (xs : List α), k < (slidingWindows xs size step).length →
      (slidingWindows xs size step)[k]? = some ((xs.drop (step * k)).take size) := by
  intro k
  induction k with
  | zero =>
    intro xs h
    have hxs : xs ≠ [] := by
      intro hnil
      rw [hnil, slidingWindows_nil] at h
      simp at h
    rw [slidingWindows_cons xs size step hstep hxs]
    simp
  | succ k ih =>
    intro xs h
    have hxs : xs ≠ [] := by
      intro hnil
      rw [hnil, slidingWindows_nil] at h
      simp at h
    have hcons := slidingWindows_cons xs size step hstep hxs
    have h2 : k < (slidingWindows (xs.drop step) size step).length := by
      rw [hcons] at h
      simpa using h
    rw [hcons, List.getElem?_cons_succ, ih (xs.drop step) h2, List.drop_drop]
    congr 3
    ring

/-! ### Helper lemmas about splitting, joining and stripping -/

theorem splitAux_good :
    ∀ (s acc : List Char), (∀ c ∈ acc, isWS c = false) →
      ∀ w ∈ splitAux s acc, w ≠ [] ∧ ∀ c ∈ w, isWS c = false := by
  intro s
  induction s with
  | nil =>
    intro acc hacc w hw
    rw [splitAux] at hw
    by_cases hacc0 : acc = []
    · simp [hacc0] at hw
    · rw [if_neg hacc0, List.mem_singleton] at hw
      subst hw
      refine ⟨by simpa using hacc0, ?_⟩
      intro c hc
      exact hacc c (List.mem_reverse.mp hc)
  | cons c cs ih =>
    intro acc hacc w hw
    rw [splitAux] at hw
    by_cases hws : isWS c
    · rw [if_pos hws] at hw
      by_cases hacc0 : acc = []
      · rw [if_pos hacc0] at hw
        exact ih [] (by simp) w hw
      · rw [if_neg hacc0, List.mem_cons] at hw
        rcases hw with rfl | hw
        · refine ⟨by simpa using hacc0, ?_⟩
          intro d hd
          exact hacc d (List.mem_reverse.mp hd)
        · exact ih [] (by simp) w hw
    · rw [if_neg hws] at hw
      refine ih (c :: acc) ?_ w hw
      intro d hd
      rcases List.mem_cons.mp hd with rfl | hd
      · exact Bool.eq_false_iff.mpr hws
      · exact hacc d hd

theorem splitWords_good (s : List Char) :
    ∀ w ∈ splitWords s, w ≠ [] ∧ ∀ c ∈ w, isWS c = false :=
  splitAux_good s [] (by simp)

theorem splitAux_skip_word :
    ∀ (w : List Char), (∀ c ∈ w, isWS c = false) →
      ∀ (rest acc : List Char),
        splitAux (w ++ rest) acc = splitAux rest (w.reverse ++ acc) := by
  intro w
  induction w with
  | nil => intro _ rest acc; simp
  | cons c cs ih =>
    intro hw rest acc
    have hc : isWS c = false := hw c (List.mem_cons_self c cs)
    rw [List.cons_append, splitAux, if_neg (by simp [hc]),
      ih (fun d hd => hw d (List.mem_cons_of_mem c hd)) rest (c :: acc)]
    congr 1
    simp

theorem splitAux_from_word (w : List Char) (hw1 : w ≠ [])
    (hw2 : ∀ c ∈ w, isWS c = false) (ws : List (List Char)) :
    splitAux (joinWords (w :: ws)) [] = w :: splitAux (joinWords ws) [] ∨
      (ws = [] ∧ splitAux (joinWords (w :: ws)) [] = [w]) := by
  have hrev : w.reverse ≠ [] := by simpa using hw1
  cases ws with
  | nil =>
    right
    refine ⟨rfl, ?_⟩
    show splitAux w [] = [w]
    have hskip := splitAux_skip_word w hw2 [] []
    rw [List.append_nil, List.append_nil] at hskip
    rw [hskip, splitAux, if_neg hrev, List.reverse_reverse]
  | cons w2 ws2 =>
    left
    show splitAux (w ++ ' ' :: joinWords (w2 :: ws2)) [] = _
    rw [splitAux_skip_word w hw2 (' ' :: joinWords (w2 :: ws2)) [], List.append_nil,
      splitAux, if_pos (by decide), if_neg hrev, List.reverse_reverse]

theorem split_join (ws : List (List Char))
    (h : ∀ w ∈ ws, w ≠ [] ∧ ∀ c ∈ w, isWS c = false) :
    splitWords (joinWords ws) = ws := by
  induction ws with
  | nil => rfl
  | cons w ws2 ih =>
    have hw := h w (List.mem_cons_self w ws2)
    have hrest : ∀ v ∈ ws2, v ≠ [] ∧ ∀ c ∈ v, isWS c = false :=
      fun v hv => h v (List.mem_cons_of_mem w hv)
    rcases splitAux_from_word w hw.1 hw.2 ws2 with hcase | ⟨hnil, hcase⟩
    · show splitAux (joinWords (w :: ws2)) [] = w :: ws2
      rw [hcase]
      congr 1
      exact ih hrest
    · subst hnil
      exact hcase

theorem dropLeadWS_eq_nil :
    ∀ l : List Char, dropLeadWS l = [] → ∀ c ∈ l, isWS c = true := by
  intro l
  induction l with
  | nil => intro _ c hc; simp at hc
  | cons a as ih =>
    intro h c hc
    rw [dropLeadWS] at h
    by_cases ha : isWS a
    · rw [if_pos ha] at h
      rcases List.mem_cons.mp hc with rfl | hc
      · exact ha
      · exact ih h c hc
    · rw [if_neg ha] at h
      simp at h

theorem dropLeadWS_allWS :
    ∀ l : List Char, (∀ c ∈ dropLeadWS l, isWS c = true) → ∀ c ∈ l, isWS c = true := by
  intro l
  induction l with
  | nil => intro _ c hc; simp at hc
  | cons a as ih =>
    intro h c hc
    rw [dropLeadWS] at h
    by_cases ha : isWS a
    · rw [if_pos ha] at h
      rcases List.mem_cons.mp hc with rfl | hc
      · exact ha
      · exact ih h c hc
    · rw [if_neg ha] at h
      exact absurd (h a (List.mem_cons_self a as)) ha

theorem pyStrip_eq_nil_allWS (s : List Char) (h : pyStrip s = []) :
    ∀ c ∈ s, isWS c = true := by
  rw [pyStrip, List.reverse_eq_nil_iff] at h
  have h1 : ∀ c ∈ (dropLeadWS s).reverse, isWS c = true := dropLeadWS_eq_nil _ h
  have h2 : ∀ c ∈ dropLeadWS s, isWS c = true := by
    intro c hc
    exact h1 c (List.mem_reverse.mpr hc)
  exact dropLeadWS_allWS s h2

theorem mem_joinWords_head (w : List Char) (ws : List (List Char)) (c : Char)
    (hc : c ∈ w) : c ∈ joinWords (w :: ws) := by
  cases ws with
  | nil => exact hc
  | cons w2 ws2 =>
    show c ∈ w ++ ' ' :: joinWords (w2 :: ws2)
    exact List.mem_append_left _ hc

theorem joinWords_strip_ne (ws : List (List Char)) (hne : ws ≠ [])
    (h : ∀ w ∈ ws, w ≠ [] ∧ ∀ c ∈ w, isWS c = false) :
    pyStrip (joinWords ws) ≠ [] := by
  intro hstrip
  rcases List.exists_cons_of_ne_nil hne with ⟨w, ws2, rfl⟩
  have hw := h w (List.mem_cons_self w ws2)
  rcases List.exists_cons_of_ne_nil hw.1 with ⟨c, cs, hc⟩
  have hcw : c ∈ w := by rw [hc]; exact List.mem_cons_self c cs
  have hWS : isWS c = true :=
    pyStrip_eq_nil_allWS _ hstrip c (mem_joinWords_head w ws2 c hcw)
  rw [hw.2 c hcw] at hWS
  exact Bool.false_ne_true hWS

theorem filterMap_eq_map_of {α β : Type} (f : α → Option β) (g : α → β) :
    ∀ l : List α, (∀ a ∈ l, f a = some (g a)) → l.filterMap f = l.map g := by
  intro l
  induction l with
  | nil => intro _; rfl
  | cons a as ih =>
    intro h
    rw [List.filterMap_cons, h a (List.mem_cons_self a as), List.map_cons,
      ih (fun b hb => h b (List.mem_cons_of_mem a hb))]

theorem chunk_text_eq (text : List Char) :
    chunk_text text 500 100 =
      Except.ok ((slidingWindows (splitWords text) 500 400).map joinWords) := by
  rw [chunk_text]
  simp only [if_pos (by omega : (100 : Nat) < 500)]
  congr 1
  rw [slidingWindows, List.map_map]
  apply filterMap_eq_map_of
  intro i hi
  have hlt : i < (splitWords text).length := pyRangeStep_mem_lt 0 _ 400 i hi
  have hdrop : (splitWords text).drop i ≠ [] := by
    rw [Ne, List.drop_eq_nil_iff]
    omega
  have hwin : ((splitWords text).drop i).take 500 ≠ [] := by
    rw [Ne, List.take_eq_nil_iff]
    simp [hdrop]
  have hgood : ∀ w ∈ ((splitWords text).drop i).take 500,
      w ≠ [] ∧ ∀ c ∈ w, isWS c = false := by
    intro w hw
    exact splitWords_good text w (List.drop_subset _ _ (List.take_subset _ _ hw))
  show (if pyStrip (joinWords (((splitWords text).drop i).take 500)) = [] then none
      else some (joinWords (((splitWords text).drop i).take 500))) = _
  rw [if_neg (joinWords_strip_ne _ hwin hgood)]
  rfl

theorem chunk_text_words (text : List Char) (chunks : List (List Char))
    (hc : chunk_text text 500 100 = Except.ok chunks) (i : Nat) (ci : List Char)
    (hi : chunks[i]? = some ci) :
    splitWords ci = ((splitWords text).drop (400 * i)).take 500 := by
  rw [chunk_text_eq] at hc
  have hchunks : chunks = (slidingWindows (splitWords text) 500 400).map joinWords :=
    (Except.ok.inj hc).symm
  subst hchunks
  rw [List.getElem?_map] at hi
  have hlen : i < (slidingWindows (splitWords text) 500 400).length := by
    by_contra hge
    rw [List.getElem?_eq_none (by omega)] at hi
    simp at hi
  rw [slidingWindows_getElem 500 400 (by omega) i _ hlen] at hi
  have hwin : ci = joinWords (((splitWords text).drop (400 * i)).take 500) := by
    have := Option.map_eq_some'.mp hi
    rcases this with ⟨a, ha1, ha2⟩
    rw [← Option.some.inj ha1] at ha2
    exact ha2.symm
  subst hwin
  apply split_join
  intro w hw
  exact splitWords_good text w (List.drop_subset _ _ (List.take_subset _ _ hw))

/-! ### Helper lemmas about the polling loop -/

theorem pollLoop_polls_le {γ : Type} (responses : Nat → PollResult γ)
    (handleCompleted : γ → String) :
    ∀ (r k : Nat), (pollLoop responses handleCompleted k r).2 ≤ r := by
  intro r
  induction r with
  | zero => intro k; simp [pollLoop]
  | succ r ih =>
    intro k
    cases hres : responses k with
    | completed out => simp [pollLoop, hres]
    | failed => simp [pollLoop, hres]
    | pending =>
      simp only [pollLoop, hres]
      exact Nat.succ_le_succ (ih (k + 1))
    | timeoutExc =>
      simp only [pollLoop, hres]
      by_cases hr : r = 0
      · simp [hr]
      · rw [if_neg hr]
        exact Nat.succ_le_succ (ih (k + 1))
    | requestExc m => simp [pollLoop, hres]

theorem pollLoop_all_pending {γ : Type} (responses : Nat → PollResult γ)
    (handleCompleted : γ → String) :
    ∀ (r k : Nat), (∀ j, j < r → responses (k + j) = PollResult.pending) →
      pollLoop responses handleCompleted k r =
        ("Error: LLM request timed out after 300 seconds (5 minutes).", r) := by
  intro r
  induction r with
  | zero => intro k _; rfl
  | succ r ih =>
    intro k hpend
    have hk : responses k = PollResult.pending := by
      have := hpend 0 (Nat.succ_pos r)
      rwa [Nat.add_zero] at this
    simp only [pollLoop, hk]
    rw [ih (k + 1) (fun j hj => by
      have h2 := hpend (j + 1) (Nat.succ_lt_succ hj)
      have he : k + (j + 1) = k + 1 + j := by omega
      rwa [he] at h2)]

theorem pollLoop_failed {γ : Type} (responses : Nat → PollResult γ)
    (handleCompleted : γ → String) :
    ∀ (j r k : Nat), j < r → responses (k + j) = PollResult.failed →
      (∀ i, i < j → responses (k + i) = PollResult.pending) →
      (pollLoop responses handleCompleted k r).1 = "Error: LLM job failed." := by
  intro j
  induction j with
  | zero =>
    intro r k hjr hfail _
    cases r with
    | zero => omega
    | succ r =>
      rw [Nat.add_zero] at hfail
      simp [pollLoop, hfail]
  | succ j ih =>
    intro r k hjr hfail hpend
    cases r with
    | zero => omega
    | succ r =>
      have hk : responses k = PollResult.pending := by
        have := hpend 0 (Nat.succ_pos j)
        rwa [Nat.add_zero] at this
      simp only [pollLoop, hk]
      apply ih r (k + 1) (by omega)
      · have he : k + (j + 1) = k + 1 + j := by omega
        rwa [he] at hfail
      · intro i hi
        have h2 := hpend (i + 1) (Nat.succ_lt_succ hi)
        have he : k + (i + 1) = k + 1 + i := by omega
        rwa [he] at h2

/-! ### Claims -/

/-- Claim C1: the derived invoice Status follows the exact decision order of
the spec (unparseable due date gives Unknown; a payment status whose
lowercase form differs from "not paid" gives Paid even past the due date;
then strictly-before-today gives Overdue; the inclusive window from today
through today plus seven days gives Upcoming; anything later gives Future),
and the four concrete examples with today = 2024-06-15 classify as stated. -/
theorem c1_status_decision_order :
    (∀ (due : Option Int) (ps : String) (today : Int),
      status_fn due ps today = statusLabelerSpec due ps today)
    ∧ (∀ (due : Int) (ps : String) (today : Int),
        due < today → pyLower ps ≠ "not paid" → status_fn (some due) ps today = "Paid")
    ∧ (∀ today : Int, status_fn (some today) "not paid" today = "Upcoming")
    ∧ (∀ today : Int, status_fn (some (today + 7)) "not paid" today = "Upcoming")
    ∧ (∀ today : Int, status_fn (some (today + 8)) "not paid" today = "Future")
    ∧ status_fn (some (dayOf2024 6 10 : Nat)) "not paid" (dayOf2024 6 15 : Nat) = "Overdue"
    ∧ status_fn (some (dayOf2024 6 20 : Nat)) "not paid" (dayOf2024 6 15 : Nat) = "Upcoming"
    ∧ status_fn (some (dayOf2024 7 1 : Nat)) "not paid" (dayOf2024 6 15 : Nat) = "Future"
    ∧ status_fn (some (dayOf2024 6 10 : Nat)) "paid" (dayOf2024 6 15 : Nat) = "Paid"
    ∧ ∀ (ps : String) (today : Int), status_fn none ps today = "Unknown" := by
  have hnp : pyLower "not paid" = "not paid" := by decide
  refine ⟨?_, ?_, ?_, ?_, ?_, ?_, ?_, ?_, ?_, ?_⟩
  · intro due ps today
    cases due with
    | none => rfl
    | some d =>
      by_cases h : pyLower ps = "not paid" <;> simp [status_fn, statusLabelerSpec, h]
  · intro due ps today _ h2
    simp [status_fn, h2]
  · intro t
    rw [status_fn.eq_def]
    simp only [hnp, ne_eq, not_true_eq_false, if_false]
    rw [if_neg (by omega), if_pos (by omega)]
  · intro t
    rw [status_fn.eq_def]
    simp only [hnp, ne_eq, not_true_eq_false, if_false]
    rw [if_neg (by omega), if_pos (by omega)]
  · intro t
    rw [status_fn.eq_def]
    simp only [hnp, ne_eq, not_true_eq_false, if_false]
    rw [if_neg (by omega), if_neg (by omega)]
  · decide
  · decide
  · decide
  · decide
  · intro ps today
    rfl

/-- Claim C1 witness: the theorem applied at a concrete paid, past-due
invoice (due day 0, today day 1). -/
theorem c1_status_decision_order_witness :
    status_fn (some 0) "paid" 1 = "Paid" :=
  c1_status_decision_order.2.1 0 "paid" 1 (by omega) (by decide)

/-- Claim C2 counterexample: the claim quantifies over every query containing
"overdue", but the upcoming-keyword branch is checked first, so the query
"overdue upcoming invoices" (which contains "overdue") filters for Upcoming
rows: the filtered table contains `rowU` whose Status is not Overdue.
Moreover, for the query "overdue" on an all-Overdue table the filter returns
the whole table, so the result is not a strict subset. -/
theorem c2_overdue_filter_counterexample :
    strContains (pyLower "overdue upcoming invoices") "overdue" = true
    ∧ queryIntentFilter "overdue upcoming invoices" [rowU, rowO] 0 = [rowU]
    ∧ rowStatus rowU 0 = "Upcoming"
    ∧ queryIntentFilter "overdue" [rowO] 0 = [rowO] := by
  refine ⟨by decide, by decide, by decide, by decide⟩

/-- Claim C2 (amended): for every query whose lowercase form contains an
overdue keyword ("overdue", "late" or "crossed") and none of the upcoming
keywords ("upcoming", "this week", "next week"), the intent-filtered table
is exactly the rows whose derived Status is Overdue, is a sublist of the
unfiltered table, contains only Overdue rows, and is a proper subset
whenever some row has a different Status. -/
theorem c2_overdue_filter_amended (query : String) (rows : List InvoiceRow) (today : Int)
    (hov : overdueKeywords.any (fun k => strContains (pyLower query) k) = true)
    (hup : upcomingKeywords.any (fun k => strContains (pyLower query) k) = false) :
    queryIntentFilter query rows today =
      rows.filter (fun r => rowStatus r today == "Overdue")
    ∧ List.Sublist (queryIntentFilter query rows today) rows
    ∧ (∀ r ∈ queryIntentFilter query rows today, rowStatus r today = "Overdue")
    ∧ ((∃ r ∈ rows, rowStatus r today ≠ "Overdue") →
        queryIntentFilter query rows today ≠ rows) := by
  have hfil : queryIntentFilter query rows today =
      rows.filter (fun r => rowStatus r today == "Overdue") := by
    rw [queryIntentFilter]
    simp only [hup, hov, Bool.false_eq_true, if_false, if_true]
  refine ⟨hfil, ?_, ?_, ?_⟩
  · rw [hfil]
    exact List.filter_sublist rows
  · intro r hr
    rw [hfil] at hr
    have := (List.mem_filter.mp hr).2
    exact eq_of_beq this
  · rintro ⟨r, hr, hne⟩ heq
    rw [hfil] at heq
    have hrf : r ∈ rows.filter (fun r => rowStatus r today == "Overdue") := by
      rw [heq]; exact hr
    exact hne (eq_of_beq (List.mem_filter.mp hrf).2)

/-- Claim C2 witness: the amended theorem applied to the query "overdue"
with one Overdue and one Upcoming row: only the Overdue row survives. -/
theorem c2_overdue_filter_amended_witness :
    queryIntentFilter "overdue" [rowU, rowO] 0 =
      [rowU, rowO].filter (fun r => rowStatus r 0 == "Overdue")
    ∧ ∀ r ∈ queryIntentFilter "overdue" [rowU, rowO] 0, rowStatus r 0 = "Overdue" := by
  have h := c2_overdue_filter_amended "overdue" [rowU, rowO] 0 (by decide) (by decide)
  exact ⟨h.1, h.2.2.1⟩

/-- Claim C3: on a retrieval result with one resolvable chunk id and one
dangling chunk id, the utils/pipeline.py variant drops the dangling hit and
keeps the valid content, while the RAG/src/pipeline.py variant of the same
loop raises KeyError on the empty metadata dict instead of dropping the hit
(the code bug the claim is measured against). -/
theorem c3_metadata_miss_eval :
    collectDocs ["id1", "id2"] storeC = ["A"]
    ∧ collectDocsRAG ["id1", "id2"] storeC = Except.error "KeyError: content" := by
  exact ⟨by decide, by decide⟩

/-- Claim C5: `chunk_text` has no configuration guard at all. With
overlap greater than chunk_size the Python range is empty and the function
silently returns the degenerate empty chunk list; with overlap equal to
chunk_size the zero range step raises a bare ValueError; no ConfigError
exists on either path, while a valid configuration returns chunks normally. -/
theorem c5_no_overlap_guard_eval :
    chunk_text ("a b c".data) 5 7 = Except.ok []
    ∧ chunk_text ("a b c".data) 5 5 =
        Except.error "ValueError: range() arg 3 must not be zero"
    ∧ chunk_text ("a b c".data) 2 1 =
        Except.ok ["a b".data, "b c".data, "c".data] := by
  exact ⟨by decide, by decide, by decide⟩

/-- Claim C6: `truncate` never returns more than max_length plus the
three-character ellipsis marker; inputs within the budget pass through
unchanged, longer inputs are cut to exactly max_length characters plus the
marker, and the four context sections are truncated against independent
default budgets of 5000. -/
theorem c6_truncate_bounded :
    (∀ (max_len : Nat) (txt : List Char),
      (truncate txt max_len).length ≤ max_len + 3
      ∧ (txt.length ≤ max_len → truncate txt max_len = txt)
      ∧ (txt.length > max_len →
          truncate txt max_len = txt.take max_len ++ "...".data
          ∧ (truncate txt max_len).length = max_len + 3))
    ∧ ∀ ar ap po reg : List Char,
        (truncateSections ar ap po reg).1.length ≤ 5003
        ∧ (truncateSections ar ap po reg).2.1.length ≤ 5003
        ∧ (truncateSections ar ap po reg).2.2.1.length ≤ 5003
        ∧ (truncateSections ar ap po reg).2.2.2.length ≤ 5003 := by
  have hmain : ∀ (max_len : Nat) (txt : List Char),
      (truncate txt max_len).length ≤ max_len + 3
      ∧ (txt.length ≤ max_len → truncate txt max_len = txt)
      ∧ (txt.length > max_len →
          truncate txt max_len = txt.take max_len ++ "...".data
          ∧ (truncate txt max_len).length = max_len + 3) := by
    intro max_len txt
    by_cases h : txt.length > max_len
    · rw [truncate, if_pos h]
      refine ⟨?_, fun hle => absurd h (by omega), fun _ => ⟨rfl, ?_⟩⟩
      · rw [List.length_append, List.length_take]
        simp [Nat.min_le_left]
      · rw [List.length_append, List.length_take]
        have hmin : min max_len txt.length = max_len := by omega
        rw [hmin]
        rfl
    · rw [truncate, if_neg h]
      exact ⟨by omega, fun _ => rfl, fun hgt => absurd hgt h⟩
  refine ⟨hmain, ?_⟩
  intro ar ap po reg
  exact ⟨(hmain 5000 ar).1, (hmain 5000 ap).1, (hmain 5000 po).1, (hmain 5000 reg).1⟩

/-- Claim C6 witness: the theorem applied at budget 1 to the short input
"x" (unchanged) and the longer input "xy" (cut to one character plus the
marker, length 4). -/
theorem c6_truncate_bounded_witness :
    truncate ("x".data) 1 = "x".data
    ∧ truncate ("xy".data) 1 = "x".data ++ "...".data
    ∧ (truncate ("xy".data) 1).length = 4 := by
  have h1 := (c6_truncate_bounded.1 1 ("x".data)).2.1 (by decide)
  have h2 := (c6_truncate_bounded.1 1 ("xy".data)).2.2 (by decide)
  exact ⟨h1, by simpa using h2.1, h2.2⟩

/-- Claim C7: for every path whose extension is neither .pdf nor .csv,
`ingest_document` fails with the unsupported-file-type error before issuing
any effect: no parse, no embedding call, no collection init, no metadata
write and no upsert appear in the effect trace. -/
theorem c7_unsupported_extension_fail_fast (path : String) (pdfText : List Char)
    (csvChunks : List (List Char)) (embedFn : List (List Char) → List (List Int))
    (uuids : Nat → String)
    (hpdf : pyEndsWith path ".pdf" = false) (hcsv : pyEndsWith path ".csv" = false) :
    ingest_document path pdfText csvChunks embedFn uuids =
      (Except.error "Unsupported file type", []) := by
  rw [ingest_document]
  simp only [hpdf, hcsv, Bool.false_eq_true, if_false]

/-- Claim C7 witness: the theorem applied to the path "report.txt" with
concrete oracles. -/
theorem c7_unsupported_extension_fail_fast_witness :
    ingest_document "report.txt" [] [] (fun _ => []) (fun _ => "u0") =
      (Except.error "Unsupported file type", []) :=
  c7_unsupported_extension_fail_fast "report.txt" [] [] (fun _ => []) (fun _ => "u0")
    (by decide) (by decide)

/-- Claim C8: `init_collection` probes the collection and creates it only on
a failed probe: with an existing collection it issues no create and no
delete and leaves the state untouched, it never deletes, it never changes
the stored points, and a second call after any first call is a pure probe —
so repeated calls never destroy indexed data. -/
theorem c8_init_collection_idempotent (dim : Nat) (st : QdrantState) :
    (init_collection dim st).1.points = st.points
    ∧ QAction.deleteC ∉ (init_collection dim st).2
    ∧ (∀ d, st.collection = some d → init_collection dim st = (st, [QAction.getC]))
    ∧ (st.collection = none →
        init_collection dim st =
          (⟨some dim, st.points⟩, [QAction.getC, QAction.createC dim]))
    ∧ ∀ d2, init_collection d2 (init_collection dim st).1 =
        ((init_collection dim st).1, [QAction.getC]) := by
  cases hcol : st.collection with
  | none =>
    refine ⟨?_, ?_, ?_, ?_, ?_⟩ <;>
      simp [init_collection, get_collection, hcol]
  | some d0 =>
    refine ⟨?_, ?_, ?_, ?_, ?_⟩ <;>
      simp [init_collection, get_collection, hcol]

/-- Claim C8 witness: the theorem applied to a state that already holds a
collection of dimension 3 with one stored point: the call is a pure probe. -/
theorem c8_init_collection_idempotent_witness :
    init_collection 4 ⟨some 3, ["p1"]⟩ = (⟨some 3, ["p1"]⟩, [QAction.getC]) :=
  (c8_init_collection_idempotent 4 ⟨some 3, ["p1"]⟩).2.2.1 3 rfl

/-- Claim C9: the polling loop of `call_vllm` issues at most 100 status
polls for every sequence of backend responses; if the first 100 polls all
report an in-progress status it stops after exactly 100 polls with the
user-visible timeout message, and if the job reports FAILED (after any
number of pending polls) it returns the user-visible failure message — in
every case a string is returned rather than an exception being raised. -/
theorem c9_poll_loop_bounded {γ : Type} (responses : Nat → PollResult γ)
    (handleCompleted : γ → String) :
    (call_vllm_poll responses handleCompleted).2 ≤ 100
    ∧ ((∀ k, k < 100 → responses k = PollResult.pending) →
        call_vllm_poll responses handleCompleted =
          ("Error: LLM request timed out after 300 seconds (5 minutes).", 100))
    ∧ ∀ j, j < 100 → responses j = PollResult.failed →
        (∀ i, i < j → responses i = PollResult.pending) →
        (call_vllm_poll responses handleCompleted).1 = "Error: LLM job failed." := by
  refine ⟨pollLoop_polls_le responses handleCompleted 100 0, ?_, ?_⟩
  · intro hpend
    exact pollLoop_all_pending responses handleCompleted 100 0
      (fun j hj => by simpa using hpend j hj)
  · intro j hj hfail hpend
    exact pollLoop_failed responses handleCompleted j 100 0 hj (by simpa using hfail)
      (fun i hi => by simpa using hpend i hi)

/-- Claim C9 witness: the theorem applied to a backend that never finishes:
exactly 100 polls and the timeout message. -/
theorem c9_poll_loop_bounded_witness :
    call_vllm_poll (fun _ => (PollResult.pending : PollResult Unit)) (fun _ => "") =
      ("Error: LLM request timed out after 300 seconds (5 minutes).", 100) :=
  (c9_poll_loop_bounded (fun _ => (PollResult.pending : PollResult Unit))
    (fun _ => "")).2.1 (fun _ _ => rfl)

theorem slidingWindows_dropLast_length {α : Type} (b : Nat) (hb : 0 < b) :
    ∀ xs : List α, ∀ batch ∈ (slidingWindows xs b b).dropLast, batch.length = b := by
  intro xs
  generalize hL : xs.length = n
  induction n using Nat.strong_induction_on generalizing xs with
  | _ n ih =>
    cases xs with
    | nil =>
      rw [slidingWindows_nil]
      intro batch hmem
      simp at hmem
    | cons y ys =>
      rw [slidingWindows_cons (y :: ys) b b hb (List.cons_ne_nil y ys)]
      cases hrest : slidingWindows ((y :: ys).drop b) b b with
      | nil =>
        intro batch hmem
        simp at hmem
      | cons r rs =>
        intro batch hmem
        rw [List.dropLast_cons₂] at hmem
        have hblen : b < (y :: ys).length := by
          by_contra hge
          have hdropnil : (y :: ys).drop b = [] := by
            rw [List.drop_eq_nil_iff]
            omega
          rw [hdropnil, slidingWindows_nil] at hrest
          exact List.cons_ne_nil r rs hrest.symm
        rcases List.mem_cons.mp hmem with rfl | hmem2
        · rw [List.length_take]
          omega
        · rw [← hrest] at hmem2
          exact ih ((y :: ys).drop b).length
            (by rw [← hL]; simpa using Nat.sub_lt (Nat.succ_pos ys.length) hb)
            ((y :: ys).drop b) rfl batch hmem2

/-- Claim C10: for every point list and positive batch size,
`upsert_embeddings` partitions its input exactly: the batches concatenated
in order equal the input (each point upserted exactly once, in order), every
batch except possibly the last has exactly batch_size elements, and no batch
exceeds batch_size. -/
theorem c10_upsert_batches {α : Type} (points : List α) (b : Nat) (hb : 0 < b) :
    (upsert_embeddings points b).flatten = points
    ∧ (∀ batch ∈ (upsert_embeddings points b).dropLast, batch.length = b)
    ∧ ∀ batch ∈ upsert_embeddings points b, batch.length ≤ b := by
  refine ⟨slidingWindows_flatten b hb points, ?_, ?_⟩
  · exact slidingWindows_dropLast_length b hb points
  · intro batch hmem
    rw [upsert_embeddings, slidingWindows] at hmem
    rcases List.mem_map.mp hmem with ⟨i, _, rfl⟩
    rw [List.length_take]
    exact Nat.min_le_left b _

/-- Claim C10 witness: the theorem applied to five points with batch size
two: batches [1,2], [3,4], [5] concatenate back to the input. -/
theorem c10_upsert_batches_witness :
    (upsert_embeddings [1, 2, 3, 4, 5] 2).flatten = [1, 2, 3, 4, 5]
    ∧ ∀ batch ∈ (upsert_embeddings [1, 2, 3, 4, 5] 2).dropLast, batch.length = 2 := by
  have h := c10_upsert_batches [1, 2, 3, 4, 5] 2 (by omega)
  exact ⟨h.1, h.2.1⟩

theorem replicateA_good (n : Nat) :
    ∀ w ∈ List.replicate n wA, w ≠ [] ∧ ∀ c ∈ w, isWS c = false := by
  intro w hw
  rw [List.eq_of_mem_replicate hw]
  exact ⟨by decide, by decide⟩

theorem splitWords_textC : splitWords textC = List.replicate 450 wA :=
  split_join _ (replicateA_good 450)

theorem splitWords_chunkC2 : splitWords chunkC2 = List.replicate 50 wA :=
  split_join _ (replicateA_good 50)

set_option maxRecDepth 4000 in
theorem chunk_textC_eval : chunk_text textC 500 100 = Except.ok [textC, chunkC2] := by
  rw [chunk_text_eq, splitWords_textC]
  have hw : slidingWindows (List.replicate 450 wA) 500 400 =
      [List.replicate 450 wA, List.replicate 50 wA] := by decide
  rw [hw]
  rfl

/-- Claim C4 counterexample: on the 450-word text `textC`, chunking with
chunk_size 500 and overlap 100 yields two chunks (the whole text and its
last 50 words), and the last 100 words of chunk 0 (100 words) differ from
the first 100 words of chunk 1 (only 50 words exist), so the claimed
last-100 = first-100 equation for every consecutive pair fails even though
only the final chunk is shorter than 500 words. -/
theorem c4_chunk_overlap_counterexample :
    chunk_text textC 500 100 = Except.ok [textC, chunkC2]
    ∧ lastN 100 (splitWords textC) ≠ (splitWords chunkC2).take 100 := by
  refine ⟨chunk_textC_eval, ?_⟩
  rw [splitWords_textC, splitWords_chunkC2]
  set_option maxRecDepth 4000 in decide

/-- Claim C4 (amended): with chunk_size 500 and overlap 100 the chunks are
exactly the word windows at positions 400*i through 400*i+499 of the input
(clipped at the end), and for every consecutive pair the words of chunk i
from position 400 onward equal the first 100 words of chunk i+1 — which is
all of chunk i+1 when it has fewer than 100 words; when chunk i holds the
full 500 words this is the last-100 = first-100 overlap of the claim. -/
theorem c4_chunk_overlap_amended (text : List Char) (chunks : List (List Char))
    (hc : chunk_text text 500 100 = Except.ok chunks) :
    (∀ i ci, chunks[i]? = some ci →
      splitWords ci = ((splitWords text).drop (400 * i)).take 500)
    ∧ ∀ i ci cj, chunks[i]? = some ci → chunks[i + 1]? = some cj →
        (splitWords ci).drop 400 = (splitWords cj).take 100 := by
  refine ⟨fun i ci hi => chunk_text_words text chunks hc i ci hi, ?_⟩
  intro i ci cj hi hj
  rw [chunk_text_words text chunks hc i ci hi,
    chunk_text_words text chunks hc (i + 1) cj hj,
    List.drop_take, List.drop_drop, List.take_take]
  have h1 : (500 : Nat) - 400 = 100 := by norm_num
  have h2 : min 100 500 = 100 := by norm_num
  have h3 : 400 * i + 400 = 400 * (i + 1) := by ring
  rw [h1, h2, h3]

/-- Claim C4 witness: the amended theorem applied to the concrete text
`textC`: the words of chunk 0 from position 400 onward equal the first 100
words of chunk 1. -/
theorem c4_chunk_overlap_amended_witness :
    (splitWords textC).drop 400 = (splitWords chunkC2).take 100 :=
  (c4_chunk_overlap_amended textC [textC, chunkC2] chunk_textC_eval).2
    0 textC chunkC2 rfl rfl








